import Mathlib

/-!
Verification of the direnv configuration module (`config.go`) against its
natural-language specification.

The file embeds the code shallowly:

* `Config.Revert`, `LoadConfig` and `Config.LoadedRC` are translated from
  `config.go`.
* The collaborators that `config.go` calls but that live outside the
  provided source (the `Env` snapshot type from `env.go`, the `EnvDiff`
  engine from `env_diff.go`, `RCFromEnv` from `rc.go`, the `xdg` package
  and the Go standard library) are modelled from the specification; each
  such definition carries a doc comment saying so.
* External effects performed by `LoadConfig` (filesystem, OS, TOML
  decoding, interpreter lookup) are abstracted into an explicit `World`
  record holding the result of each call, so `LoadConfig` becomes a pure
  function of the world and the starting environment.
* A small store-passing model (`Store`, `RevertS`) renders the imperative
  reading of `Revert`, to state that the input snapshot is never written.

Note on names: the Go fields and variables named after "prefix" are
rendered with a plural (`WhitelistPrefixes`, `Prefixes`) for lexical
reasons; everything else keeps the source's names.
-/

namespace Direnv

/-- Modelled from the spec: an environment snapshot (`Env` in the missing
`env.go`) is an immutable mapping of variable name to string value with
unique keys. -/
abbrev Env := Finmap (fun _ : String => String)

/-- Go map indexing: `env[k]` yields the stored value, or the zero value
`""` when the key is absent. -/
def Env.getd (e : Env) (k : String) : String :=
  (e.lookup k).getD ""

/-- Modelled from the spec: `Env.Fetch` (missing `env.go`) returns the
stored value when the key is present — even when that value is empty —
and the supplied default otherwise. -/
def Env.Fetch (e : Env) (k d : String) : String :=
  match e.lookup k with
  | some v => v
  | none => d

/-- Modelled from the spec: `Env.Copy` (missing `env.go`) returns a fresh
mapping with exactly the same contents; under value semantics a copy is
the same mapping. -/
def Env.Copy (e : Env) : Env := e

/-- Environment variable name, from the missing `env.go` constants. -/
def DIRENV_DIFF : String := "DIRENV_DIFF"

/-- Environment variable name, from the missing `env.go` constants. -/
def DIRENV_DIR : String := "DIRENV_DIR"

/-- Environment variable name, from the missing `env.go` constants. -/
def DIRENV_WATCHES : String := "DIRENV_WATCHES"

/-- Environment variable name, from the missing `env.go` constants. -/
def DIRENV_CONFIG : String := "DIRENV_CONFIG"

/-- Environment variable name, from the missing `env.go` constants. -/
def DIRENV_BASH : String := "DIRENV_BASH"

/-- Modelled from the spec: one `EnvDiff` entry is a pair (old value or
absent, new value or absent). -/
abbrev DiffVal := Option String × Option String

/-- Modelled from the spec: an `EnvDiff` (missing `env_diff.go`) is a
mapping from variable name to (old value or absent, new value or absent);
keys whose old and new values agree are never stored. -/
abbrev EnvDiff := Finmap (fun _ : String => DiffVal)

/-- Build an association list over a key list from a partial value
assignment; the single construction underlying the diff operations. -/
def keyedEntries {V : Type} (f : String → Option V) (ks : List String) :
    List (Sigma fun _ : String => V) :=
  ks.filterMap fun k => (f k).map fun v => ⟨k, v⟩

/-- Ordering of keys by their character lists (the iterator-based order on
`String` itself does not evaluate by kernel reduction). -/
def keyLe (a b : String) : Prop := a.data ≤ b.data

instance : DecidableRel keyLe := fun a b => (inferInstance : Decidable (a.data ≤ b.data))

instance : IsTotal String keyLe := ⟨fun a b => le_total a.data b.data⟩

instance : IsTrans String keyLe := ⟨fun _ _ _ hab hbc => le_trans hab hbc⟩

instance : IsAntisymm String keyLe :=
  ⟨fun a b hab hba => by cases a; cases b; exact congrArg String.mk (le_antisymm hab hba)⟩

/-- Canonical ordered listing of a multiset of keys, by insertion sort;
insertion sort is chosen because it evaluates by kernel reduction. -/
def sortKeys (s : Multiset String) : List String :=
  Quot.liftOn s (fun l => List.insertionSort keyLe l) fun a b h =>
    List.eq_of_perm_of_sorted
      ((List.perm_insertionSort _ a).trans (h.trans (List.perm_insertionSort _ b).symm))
      (List.sorted_insertionSort _ a) (List.sorted_insertionSort _ b)

/-- The pointwise content of the diff of two snapshots: the (old, new)
pair at a key, or nothing when the two snapshots agree there. -/
def diffF (A B : Env) (k : String) : Option DiffVal :=
  if A.lookup k = B.lookup k then none else some (A.lookup k, B.lookup k)

/-- Modelled from the spec: `Compute(before, after)` (the missing
`env_diff.go`, called `BuildEnvDiff` there) records, for every key present
in either snapshot, the pair (old, new) exactly when they differ. -/
def BuildEnvDiff (A B : Env) : EnvDiff :=
  (keyedEntries (diffF A B) (sortKeys (A.keys ∪ B.keys).val)).toFinmap

/-- Swap the old and new component of a diff entry. -/
def swapVal : DiffVal → DiffVal
  | (o, n) => (n, o)

/-- Modelled from the spec: `Reverse` (missing `env_diff.go`) swaps old
and new in every entry. -/
def EnvDiff.Reverse (d : EnvDiff) : EnvDiff :=
  (keyedEntries (fun k => (d.lookup k).map swapVal) (sortKeys d.keys.val)).toFinmap

/-- The pointwise effect of applying a diff entry at one key: a mentioned
key is set to the new value (absent meaning removal); an unmentioned key
passes through. -/
def patchVal : Option DiffVal → Option String → Option String
  | some (_, n), _ => n
  | none, v => v

/-- Modelled from the spec: `Apply` (missing `env_diff.go`, called
`Patch` there): for each diff entry, if the new value is absent the key is
deleted, otherwise it is set to the new value; keys not mentioned pass
through unchanged; the result is a new snapshot. -/
def EnvDiff.Patch (d : EnvDiff) (env : Env) : Env :=
  (keyedEntries (fun k => patchVal (d.lookup k) (env.lookup k))
    (sortKeys (env.keys ∪ d.keys).val)).toFinmap

/-- Parse a leading run of decimal digits; yields the accumulated number
(`none` when no digit was seen) and the remaining characters. -/
def parseDigits : List Char → Option Nat → Option Nat × List Char
  | [], acc => (acc, [])
  | c :: cs, acc =>
    if c.isDigit then parseDigits cs (some ((acc.getD 0) * 10 + (c.toNat - 48)))
    else (acc, c :: cs)

/-- Parse a length-prefixed string: decimal length, a colon, then exactly
that many characters. -/
def parseLenStr (cs : List Char) : Option (String × List Char) :=
  match parseDigits cs none with
  | (some n, ':' :: rest) =>
    if n ≤ rest.length then some (String.mk (rest.take n), rest.drop n) else none
  | _ => none

/-- Parse an optional value: a dash for an absent value, or a plus sign
followed by a length-prefixed string for a present one. -/
def parseOptStr (cs : List Char) : Option (Option String × List Char) :=
  match cs with
  | '-' :: rest => some (none, rest)
  | '+' :: rest => (parseLenStr rest).map fun p => (some p.1, p.2)
  | _ => none

/-- Parse one diff entry: a length-prefixed key followed by the optional
old and new values. -/
def parseEntry (cs : List Char) :
    Option ((Sigma fun _ : String => DiffVal) × List Char) :=
  (parseLenStr cs).bind fun p =>
    (parseOptStr p.2).bind fun q =>
      (parseOptStr q.2).map fun r => (⟨p.1, (q.1, r.1)⟩, r.2)

/-- Parse a whole entry sequence; the fuel bounds the number of entries
(each successful entry consumes at least one character, so the input
length is enough fuel). -/
def parseEntries : Nat → List Char → Option (List (Sigma fun _ : String => DiffVal))
  | _, [] => some []
  | 0, _ :: _ => none
  | fuel + 1, c :: cs =>
    (parseEntry (c :: cs)).bind fun p => (parseEntries fuel p.2).map (p.1 :: ·)

/-- Modelled from the spec: `LoadEnvDiff` (missing `env_diff.go`) decodes
the diff recorded in a single environment-variable token; malformed input
fails with a decode error and never yields a partial diff. The
serialization is a sequence of entries, each a length-prefixed key
followed by the optional old and new values, so empty diffs, empty values
and values containing any delimiter character round-trip. -/
def LoadEnvDiff (s : String) : Except String EnvDiff :=
  match parseEntries s.length s.data with
  | some entries => .ok entries.toFinmap
  | none => .error ("unable to unmarshal the DIRENV_DIFF environment variable: " ++ s)

/-- Decidable equality for Go-style (value, error) results, used when
evaluating the theorems at concrete inputs. -/
instance exceptDecEq {ε α : Type} [DecidableEq ε] [DecidableEq α] :
    DecidableEq (Except ε α) := fun a b =>
  match a, b with
  | .ok x, .ok y =>
    if h : x = y then .isTrue (by rw [h]) else .isFalse (fun hh => by cases hh; exact h rfl)
  | .ok _, .error _ => .isFalse (fun hh => by cases hh)
  | .error _, .ok _ => .isFalse (fun hh => by cases hh)
  | .error x, .error y =>
    if h : x = y then .isTrue (by rw [h]) else .isFalse (fun hh => by cases hh; exact h rfl)

/-- Go `time.Duration`: a count of nanoseconds, modelled as an integer. -/
abbrev Duration := Int

/-- The direnv configuration and state, translated from `config.go` lines
15-32 (the Go set-as-map `map[string]bool` keeps its map form). -/
structure Config where
  Env : Direnv.Env
  WorkDir : String
  ConfDir : String
  CacheDir : String
  DataDir : String
  SelfPath : String
  BashBuiltin : Bool
  BashPath : String
  RCDir : String
  TomlPath : String
  DisableStdin : Bool
  StrictEnv : Bool
  WarnTimeout : Duration
  WhitelistPrefixes : List String
  WhitelistExact : Finmap (fun _ : String => Bool)

/-- The global TOML settings, translated from `tomlGlobal` in `config.go`
(the decoder fills it from the top level or the global section; that merge
happens inside the external TOML library). -/
structure TomlGlobal where
  BashBuiltin : Bool
  BashPath : String
  DisableStdin : Bool
  StrictEnv : Bool
  WarnTimeout : Duration
deriving DecidableEq

/-- The whitelist TOML section, translated from `tomlWhitelist` in
`config.go`. -/
structure TomlWhitelist where
  Prefixes : List String
  Exact : List String
deriving DecidableEq

/-- The decoded TOML configuration, translated from `tomlConfig` in
`config.go`, with the backward-compatibility aliasing already resolved by
the external decoder into one `TomlGlobal`. -/
structure TomlConfig where
  Global : TomlGlobal
  Whitelist : TomlWhitelist
deriving DecidableEq

/-- Results of the external calls `LoadConfig` makes, one field per call
site: the OS, the xdg package (not in src), `os.Stat` on the two candidate
TOML paths, the TOML decoder, `time.ParseDuration` and `exec.LookPath`
from the Go standard library, and the compiled-in `bashPath` variable. -/
structure World where
  osExecutable : Except String String
  osGetwd : Except String String
  xdgConfigDir : String
  xdgCacheDir : String
  xdgDataDir : String
  statDirenvToml : Bool
  statConfigToml : Bool
  tomlDecode : Except String TomlConfig
  parseDuration : String → Except String Duration
  lookPathBash : Except String String
  bashPathDefault : String

/-- Go `strings.Replace(exePath, backslash, slash, -1)` from `config.go`
line 84, on the character list. -/
def replaceBackslashes (s : String) : String :=
  String.mk (s.data.map fun c => if c = '\\' then '/' else c)

/-- Modelled from the spec: Go `path/filepath.Join` on two already-clean
path elements concatenates with a single separator and skips empty
elements (cleaning of clean inputs is the identity and is omitted). -/
def filepathJoin (a b : String) : String :=
  if a = "" then b else if b = "" then a else a ++ "/" ++ b

/-- Go `strings.HasSuffix`, on the character lists. -/
def strHasSuffix (s suffix : String) : Bool :=
  decide (suffix.data <:+ s.data)

/-- Go `s[0:1]`, on the character list. -/
def strTake1 (s : String) : String := String.mk (s.data.take 1)

/-- Go `s[1:]`, on the character list. -/
def strDrop1 (s : String) : String := String.mk (s.data.drop 1)

/-- Normalization of one whitelist exact entry, from `config.go` lines
126-128: append the script filename unless the entry already ends in
"/.envrc". -/
def normalizeExactEntry (p : String) : String :=
  if strHasSuffix p "/.envrc" then p else filepathJoin p ".envrc"

/-- The whitelist exact map built by the TOML block of `config.go` lines
125-131. -/
def whitelistExactMap (l : List String) : Finmap (fun _ : String => Bool) :=
  l.foldl (fun m p => m.insert (normalizeExactEntry p) true) ∅

/-- The configuration directory resolution of `config.go` lines 69-72:
the `DIRENV_CONFIG` override, or else the xdg fallback. -/
def resolvedConfDir (w : World) (env : Direnv.Env) : String :=
  if Env.getd env DIRENV_CONFIG = "" then w.xdgConfigDir else Env.getd env DIRENV_CONFIG

/-- The recorded script directory of `config.go` lines 92-95: the value of
`DIRENV_DIR` with one leading dash stripped when present. -/
def rcDirOf (env : Direnv.Env) : String :=
  if 0 < (Env.getd env DIRENV_DIR).length ∧ strTake1 (Env.getd env DIRENV_DIR) = "-" then
    strDrop1 (Env.getd env DIRENV_DIR)
  else Env.getd env DIRENV_DIR

/-- The TOML path probing of `config.go` lines 101-107: `direnv.toml`,
else `config.toml`, else empty. -/
def tomlPathOf (w : World) (env : Direnv.Env) : String :=
  if w.statDirenvToml then filepathJoin (resolvedConfDir w env) "direnv.toml"
  else if w.statConfigToml then filepathJoin (resolvedConfDir w env) "config.toml"
  else ""

/-- The bash path contributed by the TOML configuration: empty when no
TOML file is found or the decode fails. -/
def tomlBash (w : World) (env : Direnv.Env) : String :=
  if tomlPathOf w env = "" then ""
  else
    match w.tomlDecode with
    | .ok tc => tc.Global.BashPath
    | .error _ => ""

/-- The warn timeout contributed by the TOML configuration: zero when no
TOML file is found or the decode fails. -/
def tomlWarn (w : World) (env : Direnv.Env) : Duration :=
  if tomlPathOf w env = "" then 0
  else
    match w.tomlDecode with
    | .ok tc => tc.Global.WarnTimeout
    | .error _ => 0

/-- The warn-timeout fallback of `config.go` lines 140-147: when the TOML
value is zero, parse `DIRENV_WARN_TIMEOUT` (default "5s"); a parse error
is logged and five seconds is used. -/
def resolveWarnTimeout (w : World) (env : Direnv.Env) (t0 : Duration) : Duration :=
  if t0 = 0 then
    match w.parseDuration (Env.Fetch env "DIRENV_WARN_TIMEOUT" "5s") with
    | .ok t => t
    | .error _ => 5000000000
  else t0

/-- The bash path resolution of `config.go` lines 149-158: the TOML value
wins, then `DIRENV_BASH`, then the compiled-in default, then a PATH
lookup, which alone can fail. -/
def resolveBashPath (w : World) (env : Direnv.Env) (b0 : String) : Except String String :=
  if b0 = "" then
    if Env.getd env DIRENV_BASH ≠ "" then .ok (Env.getd env DIRENV_BASH)
    else if w.bashPathDefault ≠ "" then .ok w.bashPathDefault
    else
      match w.lookPathBash with
      | .ok p => .ok p
      | .error e => .error ("can't find bash: " ++ e)
  else .ok b0

/-- The tail of `LoadConfig` after the TOML block (`config.go` lines
140-176): warn-timeout fallback, bash-path precedence, cache and data
directory resolution, and the final assembly of the `Config`. -/
def finishLoadConfig (w : World) (env : Direnv.Env)
    (confDir selfPath workDir rcDir tomlPath : String)
    (wlPre : List String) (wlExact : Finmap (fun _ : String => Bool))
    (bashBuiltin : Bool) (bashPath0 : String) (disableStdin strictEnv : Bool)
    (warnTimeout0 : Duration) : Except String Config :=
  match resolveBashPath w env bashPath0 with
  | .error e => .error e
  | .ok bashPath =>
    if w.xdgCacheDir = "" then .error "couldn't find a cache directory for direnv"
    else if w.xdgDataDir = "" then .error "couldn't find a data directory for direnv"
    else .ok {
      Env := env
      WorkDir := workDir
      ConfDir := confDir
      CacheDir := w.xdgCacheDir
      DataDir := w.xdgDataDir
      SelfPath := selfPath
      BashBuiltin := bashBuiltin
      BashPath := bashPath
      RCDir := rcDir
      TomlPath := tomlPath
      DisableStdin := disableStdin
      StrictEnv := strictEnv
      WarnTimeout := resolveWarnTimeout w env warnTimeout0
      WhitelistPrefixes := wlPre
      WhitelistExact := wlExact }

/-- LoadConfig opens up the direnv configuration from the Env; translated
from `config.go` lines 64-177, with every external call replaced by its
recorded result in the `World`. -/
def LoadConfig (w : World) (env : Direnv.Env) : Except String Config :=
  if resolvedConfDir w env = "" then
    .error "couldn't find a configuration directory for direnv"
  else
    match w.osExecutable with
    | .error e => .error ("LoadConfig() os.Executable() failed: " ++ e)
    | .ok exePath =>
      match w.osGetwd with
      | .error e => .error ("LoadConfig() Getwd failed: " ++ e)
      | .ok workDir =>
        if tomlPathOf w env = "" then
          finishLoadConfig w env (resolvedConfDir w env) (replaceBackslashes exePath) workDir
            (rcDirOf env) (tomlPathOf w env) [] ∅ false "" false false 0
        else
          match w.tomlDecode with
          | .error e =>
            .error ("LoadConfig() failed to parse " ++ tomlPathOf w env ++ ": " ++ e)
          | .ok tomlConf =>
            finishLoadConfig w env (resolvedConfDir w env) (replaceBackslashes exePath) workDir
              (rcDirOf env) (tomlPathOf w env) tomlConf.Whitelist.Prefixes
              (whitelistExactMap tomlConf.Whitelist.Exact) tomlConf.Global.BashBuiltin
              tomlConf.Global.BashPath tomlConf.Global.DisableStdin tomlConf.Global.StrictEnv
              tomlConf.Global.WarnTimeout

/-- Revert undoes the recorded changes (if any) to the supplied
environment, returning a new environment; translated from `config.go`
lines 213-222. -/
def Config.Revert (config : Config) (env : Direnv.Env) : Except String Direnv.Env :=
  if Env.getd config.Env DIRENV_DIFF = "" then .ok (Env.Copy env)
  else
    match LoadEnvDiff (Env.getd config.Env DIRENV_DIFF) with
    | .ok diff => .ok (diff.Reverse.Patch env)
    | .error e => .error e

/-- Modelled from the spec: the ScriptHandle ("RC", missing `rc.go`)
reconstructed from recorded state: the script file path plus the
serialized watch set recorded at load time. -/
structure RC where
  path : String
  times : String
deriving DecidableEq

/-- Modelled from the spec: FromRecordedState (missing `rc.go`, called
`RCFromEnv` there) builds the handle from the recorded script path and
serialized watch data. -/
def RCFromEnv (path times : String) (_config : Config) : RC :=
  { path := path, times := times }

/-- LoadedRC returns a RC file if any has been loaded; translated from
`config.go` lines 185-195. -/
def Config.LoadedRC (config : Config) : Option RC :=
  if config.RCDir = "" then none
  else
    let rcPath := filepathJoin config.RCDir ".envrc"
    let timesString := Env.getd config.Env DIRENV_WATCHES
    some (RCFromEnv rcPath timesString config)

/-- A store of environment snapshots addressed by references, rendering
the Go heap: each reference is an index into the list of snapshots. -/
structure Store where
  envs : List Direnv.Env

/-- Read the snapshot a reference denotes (the empty snapshot for a
dangling reference). -/
def Store.read (s : Store) (r : Nat) : Direnv.Env :=
  s.envs.getD r ∅

/-- Allocate a fresh snapshot, returning the new store and the fresh
reference. -/
def Store.alloc (s : Store) (e : Direnv.Env) : Store × Nat :=
  (⟨s.envs ++ [e]⟩, s.envs.length)

/-- Overwrite the snapshot a reference denotes. -/
def Store.write (s : Store) (r : Nat) (e : Direnv.Env) : Store :=
  ⟨s.envs.set r e⟩

/-- One destructive patch step on a snapshot: set the key to the entry's
new value, or delete it when the new value is absent. -/
def stepOp (env : Direnv.Env) (e : Sigma fun _ : String => DiffVal) : Direnv.Env :=
  match e.2.2 with
  | some v => env.insert e.1 v
  | none => env.erase e.1

/-- The entries of a diff as an ordered association list. -/
def entriesListOf (d : EnvDiff) : List (Sigma fun _ : String => DiffVal) :=
  keyedEntries (fun k => d.lookup k) (sortKeys d.keys.val)

/-- Modelled from the spec: the imperative reading of `Patch` — copy the
input snapshot into a fresh cell, then apply every diff entry by writing
into that fresh cell only; the input cell receives no write. -/
def PatchS (d : EnvDiff) (s : Store) (r : Nat) : Store × Nat :=
  let rNew := s.envs.length
  let s1 := (s.alloc (s.read r)).1
  ((entriesListOf d).foldl (fun st e => st.write rNew (stepOp (st.read rNew) e)) s1, rNew)

/-- Modelled from the spec: the imperative reading of `Config.Revert` —
the no-diff branch allocates a copy of the input cell, the diff branch
decodes, reverses and patches into a fresh cell, and the decode-error
branch leaves the store untouched. -/
def RevertS (config : Config) (s : Store) (r : Nat) : Store × Except String Nat :=
  if Env.getd config.Env DIRENV_DIFF = "" then
    ((s.alloc (s.read r)).1, .ok (s.alloc (s.read r)).2)
  else
    match LoadEnvDiff (Env.getd config.Env DIRENV_DIFF) with
    | .ok diff => ((PatchS diff.Reverse s r).1, .ok (PatchS diff.Reverse s r).2)
    | .error e => (s, .error e)

/-- Helper to build concrete snapshots. -/
def envWith (l : List (Sigma fun _ : String => String)) : Direnv.Env :=
  l.toFinmap

/-- The sample base snapshot of the specification's end-to-end property. -/
def sampleBefore : Direnv.Env := envWith [⟨"PATH", "/usr/bin"⟩]

/-- The sample post-script snapshot of the specification's end-to-end
property. -/
def sampleAfter : Direnv.Env :=
  envWith [⟨"FOO", "bar"⟩, ⟨"PATH", "/usr/bin:/proj/bin"⟩]

/-- A serialized form of the diff between the two sample snapshots. -/
def sampleDiffString : String :=
  "3:FOO-+3:bar4:PATH+8:/usr/bin+18:/usr/bin:/proj/bin"

/-- A concrete configuration whose recorded diff is the sample diff. -/
def sampleConfig : Config :=
  { Env := envWith [⟨"DIRENV_DIFF", sampleDiffString⟩]
    WorkDir := "/w"
    ConfDir := "/conf"
    CacheDir := "/cache"
    DataDir := "/data"
    SelfPath := "/usr/local/bin/direnv"
    BashBuiltin := false
    BashPath := "/bin/bash"
    RCDir := "/proj"
    TomlPath := ""
    DisableStdin := false
    StrictEnv := false
    WarnTimeout := 5000000000
    WhitelistPrefixes := []
    WhitelistExact := ∅ }

/-- The sample configuration with no recorded diff. -/
def emptyDiffConfig : Config :=
  { sampleConfig with Env := envWith [] }

/-- The sample configuration with a malformed recorded diff. -/
def badDiffConfig : Config :=
  { sampleConfig with Env := envWith [⟨"DIRENV_DIFF", "garbage"⟩] }

/-- A concrete decoded TOML configuration with one prefix entry and one
exact entry. -/
def sampleToml : TomlConfig :=
  { Global :=
      { BashBuiltin := false
        BashPath := ""
        DisableStdin := false
        StrictEnv := false
        WarnTimeout := 0 }
    Whitelist := { Prefixes := ["/home/x"], Exact := ["/home/x"] } }

/-- A concrete world in which every external call succeeds and a TOML
file is found and decodes to the sample TOML configuration. -/
def sampleWorld : World :=
  { osExecutable := .ok "/usr/local/bin/direnv"
    osGetwd := .ok "/home/u"
    xdgConfigDir := "/home/u/.config/direnv"
    xdgCacheDir := "/home/u/.cache/direnv"
    xdgDataDir := "/home/u/.local/share/direnv"
    statDirenvToml := true
    statConfigToml := false
    tomlDecode := .ok sampleToml
    parseDuration := fun s => if s = "5s" then .ok 5000000000 else .error "invalid duration"
    lookPathBash := .ok "/bin/bash"
    bashPathDefault := "/usr/bin/bash" }

/-- The sample world without any TOML file. -/
def noTomlWorld : World :=
  { sampleWorld with statDirenvToml := false, tomlDecode := .error "no file" }

/-- The sample world whose cache directory cannot be resolved. -/
def noCacheWorld : World :=
  { sampleWorld with xdgCacheDir := "" }

/-- A world in which every source of a bash interpreter is unavailable. -/
def noBashWorld : World :=
  { noTomlWorld with bashPathDefault := "", lookPathBash := .error "not found" }

/-- The empty starting environment. -/
def envEmpty : Direnv.Env := envWith []

/-- A starting environment whose recorded directory carries the pending
revert marker. -/
def envMarker : Direnv.Env := envWith [⟨"DIRENV_DIR", "-/proj"⟩]

/-- A starting environment whose recorded directory carries no marker. -/
def envPlain : Direnv.Env := envWith [⟨"DIRENV_DIR", "/proj"⟩]

/-- A starting environment that overrides the bash interpreter. -/
def envBashSet : Direnv.Env := envWith [⟨"DIRENV_BASH", "/opt/bash"⟩]

/-- A starting environment whose warn timeout does not parse. -/
def envWarnBogus : Direnv.Env := envWith [⟨"DIRENV_WARN_TIMEOUT", "bogus"⟩]

/-- A store holding the sample post-script snapshot in its only cell. -/
def sampleStore : Store := ⟨[sampleAfter]⟩

theorem dlookup_keyedEntries {V : Type} (f : String → Option V) (ks : List String)
    (a : String) :
    (keyedEntries f ks).dlookup a = if a ∈ ks then f a else none := by
  induction ks with
  | nil => simp [keyedEntries]
  | cons k ks ih =>
    by_cases hak : a = k
    · subst hak
      cases hfa : f a with
      | none =>
        simp only [keyedEntries, List.filterMap_cons, hfa, Option.map_none']
        rw [show List.filterMap _ ks = keyedEntries f ks from rfl, ih]
        simp [hfa]
      | some v =>
        simp only [keyedEntries, List.filterMap_cons, hfa, Option.map_some']
        rw [List.dlookup_cons_eq]
        simp
    · cases hfk : f k with
      | none =>
        simp only [keyedEntries, List.filterMap_cons, hfk, Option.map_none']
        rw [show List.filterMap _ ks = keyedEntries f ks from rfl, ih]
        simp [List.mem_cons, hak]
      | some v =>
        simp only [keyedEntries, List.filterMap_cons, hfk, Option.map_some']
        rw [List.dlookup_cons_ne _ _ hak]
        rw [show List.filterMap _ ks = keyedEntries f ks from rfl, ih]
        simp [List.mem_cons, hak]

theorem mem_sortKeys {a : String} {s : Multiset String} : a ∈ sortKeys s ↔ a ∈ s := by
  induction s using Quot.inductionOn with
  | h l => exact (List.perm_insertionSort _ l).mem_iff

theorem lookup_not_mem_keys {V : Type} {m : Finmap (fun _ : String => V)}
    {a : String} (h : a ∉ m.keys) : m.lookup a = none :=
  Finmap.lookup_eq_none.mpr (fun hm => h (Finmap.mem_keys.mpr hm))

theorem lookup_BuildEnvDiff (A B : Env) (a : String) :
    (BuildEnvDiff A B).lookup a = diffF A B a := by
  rw [BuildEnvDiff, Finmap.dlookup_list_toFinmap, dlookup_keyedEntries]
  split
  · rfl
  · rename_i hmem
    rw [mem_sortKeys, ← Finset.mem_def, Finset.mem_union] at hmem
    push_neg at hmem
    rw [diffF, lookup_not_mem_keys hmem.1, lookup_not_mem_keys hmem.2, if_pos rfl]

theorem EnvDiff.lookup_Reverse (d : EnvDiff) (a : String) :
    d.Reverse.lookup a = (d.lookup a).map swapVal := by
  rw [EnvDiff.Reverse, Finmap.dlookup_list_toFinmap, dlookup_keyedEntries]
  split
  · rfl
  · rename_i hmem
    rw [mem_sortKeys, ← Finset.mem_def] at hmem
    rw [lookup_not_mem_keys hmem, Option.map_none']

theorem EnvDiff.lookup_Patch (d : EnvDiff) (env : Env) (a : String) :
    (d.Patch env).lookup a = patchVal (d.lookup a) (env.lookup a) := by
  rw [EnvDiff.Patch, Finmap.dlookup_list_toFinmap, dlookup_keyedEntries]
  split
  · rfl
  · rename_i hmem
    rw [mem_sortKeys, ← Finset.mem_def, Finset.mem_union] at hmem
    push_neg at hmem
    rw [lookup_not_mem_keys hmem.1, lookup_not_mem_keys hmem.2]
    rfl

theorem patch_build (A B : Env) : (BuildEnvDiff A B).Patch A = B := by
  apply Finmap.ext_lookup
  intro a
  rw [EnvDiff.lookup_Patch, lookup_BuildEnvDiff, diffF]
  split
  · rename_i h
    exact h.symm ▸ rfl
  · rfl

theorem patch_reverse_build (A B : Env) :
    ((BuildEnvDiff A B).Reverse).Patch B = A := by
  apply Finmap.ext_lookup
  intro a
  rw [EnvDiff.lookup_Patch, EnvDiff.lookup_Reverse, lookup_BuildEnvDiff, diffF]
  split
  · rename_i h
    exact h ▸ rfl
  · rfl

theorem reverse_reverse (d : EnvDiff) : d.Reverse.Reverse = d := by
  apply Finmap.ext_lookup
  intro a
  rw [EnvDiff.lookup_Reverse, EnvDiff.lookup_Reverse, Option.map_map]
  cases d.lookup a with
  | none => rfl
  | some v => cases v; rfl

theorem strHasSuffix_iff {s suffix : String} :
    strHasSuffix s suffix = true ↔ suffix.data <:+ s.data :=
  decide_eq_true_iff

theorem endsWith_normalizeExactEntry (p : String) :
    strHasSuffix (normalizeExactEntry p) ".envrc" = true := by
  rw [strHasSuffix_iff]
  unfold normalizeExactEntry
  split
  · rename_i h
    exact (show (".envrc").data <:+ ("/.envrc").data by decide).trans (strHasSuffix_iff.mp h)
  · unfold filepathJoin
    split
    · decide
    · split
      · rename_i h2
        exact absurd h2 (by decide)
      · rw [String.data_append]
        exact List.suffix_append _ _

theorem filepathJoin_ne_empty {a b : String} (ha : a ≠ "") (hb : b ≠ "") :
    filepathJoin a b ≠ "" := by
  unfold filepathJoin
  rw [if_neg ha, if_neg hb]
  intro h
  have hl := congrArg String.length h
  rw [String.length_append, String.length_append] at hl
  have h1 : ("/" : String).length = 1 := rfl
  have h0 : ("" : String).length = 0 := rfl
  rw [h1, h0] at hl
  omega

theorem lookup_foldl_insert (l : List String) (m : Finmap (fun _ : String => Bool))
    (k : String) :
    (l.foldl (fun m p => m.insert (normalizeExactEntry p) true) m).lookup k =
      if k ∈ l.map normalizeExactEntry then some true else m.lookup k := by
  induction l generalizing m with
  | nil => simp
  | cons p l ih =>
    rw [List.foldl_cons, ih]
    by_cases hk : k ∈ l.map normalizeExactEntry
    · simp [hk]
    · rw [if_neg hk]
      by_cases hkp : k = normalizeExactEntry p
      · subst hkp
        rw [Finmap.lookup_insert]
        simp
      · rw [Finmap.lookup_insert_of_ne _ hkp]
        simp [List.mem_cons, hk, hkp]

theorem lookup_whitelistExactMap (l : List String) (k : String) :
    (whitelistExactMap l).lookup k =
      if k ∈ l.map normalizeExactEntry then some true else none := by
  rw [whitelistExactMap, lookup_foldl_insert, Finmap.lookup_empty]

theorem mem_whitelistExactMap {l : List String} {k : String}
    (h : k ∈ whitelistExactMap l) : ∃ p ∈ l, k = normalizeExactEntry p := by
  have hs := Finmap.lookup_isSome.mpr h
  rw [lookup_whitelistExactMap] at hs
  split at hs
  · rename_i hmem
    obtain ⟨p, hp, hpe⟩ := List.mem_map.mp hmem
    exact ⟨p, hp, hpe.symm⟩
  · simp at hs

theorem except_isOk_iff {ε α : Type} (x : Except ε α) :
    x.isOk = true ↔ ∃ a, x = .ok a := by
  cases x <;> simp [Except.isOk, Except.toBool]

theorem resolveBashPath_toml {w : World} {env : Direnv.Env} {b0 : String} (h : b0 ≠ "") :
    resolveBashPath w env b0 = .ok b0 := by
  unfold resolveBashPath
  rw [if_neg h]

theorem resolveBashPath_env {w : World} {env : Direnv.Env}
    (h : Env.getd env DIRENV_BASH ≠ "") :
    resolveBashPath w env "" = .ok (Env.getd env DIRENV_BASH) := by
  unfold resolveBashPath
  rw [if_pos rfl, if_pos h]

theorem resolveBashPath_default {w : World} {env : Direnv.Env}
    (h1 : Env.getd env DIRENV_BASH = "") (h2 : w.bashPathDefault ≠ "") :
    resolveBashPath w env "" = .ok w.bashPathDefault := by
  unfold resolveBashPath
  simp [h1, h2]

theorem resolveBashPath_lookpath {w : World} {env : Direnv.Env}
    (h1 : Env.getd env DIRENV_BASH = "") (h2 : w.bashPathDefault = "") :
    resolveBashPath w env "" =
      match w.lookPathBash with
      | .ok p => .ok p
      | .error e => .error ("can't find bash: " ++ e) := by
  unfold resolveBashPath
  simp [h1, h2]

theorem finishLoadConfig_ok_iff {w : World} {env : Direnv.Env}
    {confDir selfPath workDir rcDir tomlPath : String} {wlPre : List String}
    {wlExact : Finmap (fun _ : String => Bool)} {bashBuiltin : Bool} {bashPath0 : String}
    {disableStdin strictEnv : Bool} {warnTimeout0 : Duration} {c : Config} :
    finishLoadConfig w env confDir selfPath workDir rcDir tomlPath wlPre wlExact
      bashBuiltin bashPath0 disableStdin strictEnv warnTimeout0 = .ok c ↔
    ∃ bashPath, resolveBashPath w env bashPath0 = .ok bashPath ∧
      w.xdgCacheDir ≠ "" ∧ w.xdgDataDir ≠ "" ∧
      c = { Env := env, WorkDir := workDir, ConfDir := confDir, CacheDir := w.xdgCacheDir,
            DataDir := w.xdgDataDir, SelfPath := selfPath, BashBuiltin := bashBuiltin,
            BashPath := bashPath, RCDir := rcDir, TomlPath := tomlPath,
            DisableStdin := disableStdin, StrictEnv := strictEnv,
            WarnTimeout := resolveWarnTimeout w env warnTimeout0,
            WhitelistPrefixes := wlPre, WhitelistExact := wlExact } := by
  unfold finishLoadConfig
  cases hrb : resolveBashPath w env bashPath0 with
  | error e => simp
  | ok bp =>
    by_cases h1 : w.xdgCacheDir = ""
    · simp [h1]
    · by_cases h2 : w.xdgDataDir = ""
      · simp [h1, h2]
      · simp only [h1, h2, if_neg, if_false, ite_false]
        constructor
        · intro h
          refine ⟨bp, rfl, h1, h2, ?_⟩
          cases h
          rfl
        · rintro ⟨bp2, hbp2, _, _, rfl⟩
          cases hbp2
          rfl

theorem LoadConfig_ok_iff {w : World} {env : Direnv.Env} {c : Config} :
    LoadConfig w env = .ok c ↔
    resolvedConfDir w env ≠ "" ∧
    ∃ exePath workDir, w.osExecutable = .ok exePath ∧ w.osGetwd = .ok workDir ∧
      ((tomlPathOf w env = "" ∧
          finishLoadConfig w env (resolvedConfDir w env) (replaceBackslashes exePath) workDir
            (rcDirOf env) (tomlPathOf w env) [] ∅ false "" false false 0 = .ok c) ∨
        (tomlPathOf w env ≠ "" ∧ ∃ tc, w.tomlDecode = .ok tc ∧
          finishLoadConfig w env (resolvedConfDir w env) (replaceBackslashes exePath) workDir
            (rcDirOf env) (tomlPathOf w env) tc.Whitelist.Prefixes
            (whitelistExactMap tc.Whitelist.Exact) tc.Global.BashBuiltin tc.Global.BashPath
            tc.Global.DisableStdin tc.Global.StrictEnv tc.Global.WarnTimeout = .ok c)) := by
  unfold LoadConfig
  by_cases h0 : resolvedConfDir w env = ""
  · simp [h0]
  · rw [if_neg h0]
    cases hex : w.osExecutable with
    | error e => simp [h0]
    | ok exePath =>
      cases hwd : w.osGetwd with
      | error e => simp [h0]
      | ok workDir =>
        by_cases htp : tomlPathOf w env = ""
        · simp [h0, htp]
        · cases htd : w.tomlDecode with
          | error e => simp [h0, htp]
          | ok tc => simp [h0, htp]

theorem getD_set_self : ∀ (l : List Direnv.Env) (n : Nat) (x : Direnv.Env),
    n < l.length → (l.set n x).getD n ∅ = x
  | _ :: _, 0, _, _ => rfl
  | _ :: l, n + 1, x, h => getD_set_self l n x (Nat.lt_of_succ_lt_succ h)
  | [], _, _, h => absurd h (by simp)

theorem getD_set_ne : ∀ (l : List Direnv.Env) (n m : Nat) (x : Direnv.Env),
    n ≠ m → (l.set n x).getD m ∅ = l.getD m ∅
  | [], _, _, _, _ => rfl
  | _ :: _, 0, 0, _, h => absurd rfl h
  | _ :: _, 0, _ + 1, _, _ => rfl
  | _ :: _, _ + 1, 0, _, _ => rfl
  | _ :: l, n + 1, m + 1, x, h =>
    getD_set_ne l n m x (fun hh => h (congrArg Nat.succ hh))

theorem getD_append_lt : ∀ (l : List Direnv.Env) (e : Direnv.Env) (n : Nat),
    n < l.length → (l ++ [e]).getD n ∅ = l.getD n ∅
  | _ :: _, _, 0, _ => rfl
  | _ :: l, e, n + 1, h => getD_append_lt l e n (Nat.lt_of_succ_lt_succ h)
  | [], _, _, h => absurd h (by simp)

theorem getD_append_len : ∀ (l : List Direnv.Env) (e : Direnv.Env),
    (l ++ [e]).getD l.length ∅ = e
  | [], _ => rfl
  | _ :: l, e => getD_append_len l e

theorem read_alloc_old {s : Store} {e : Direnv.Env} {r : Nat} (h : r < s.envs.length) :
    (s.alloc e).1.read r = s.read r :=
  getD_append_lt _ _ _ h

theorem read_alloc_new (s : Store) (e : Direnv.Env) :
    (s.alloc e).1.read s.envs.length = e :=
  getD_append_len _ _

theorem read_write_self {s : Store} {r : Nat} {e : Direnv.Env} (h : r < s.envs.length) :
    (s.write r e).read r = e :=
  getD_set_self _ _ _ h

theorem read_write_ne {s : Store} {r r2 : Nat} {e : Direnv.Env} (h : r ≠ r2) :
    (s.write r e).read r2 = s.read r2 :=
  getD_set_ne _ _ _ _ h

theorem length_write (s : Store) (r : Nat) (e : Direnv.Env) :
    (s.write r e).envs.length = s.envs.length :=
  List.length_set _ _ _

theorem fold_writes (l : List (Sigma fun _ : String => DiffVal)) :
    ∀ (st : Store) (rN : Nat), rN < st.envs.length →
      (l.foldl (fun st e => st.write rN (stepOp (st.read rN) e)) st).envs.length
          = st.envs.length ∧
        (l.foldl (fun st e => st.write rN (stepOp (st.read rN) e)) st).read rN
          = l.foldl stepOp (st.read rN) ∧
        ∀ r, r ≠ rN →
          (l.foldl (fun st e => st.write rN (stepOp (st.read rN) e)) st).read r
            = st.read r := by
  induction l with
  | nil => exact fun st rN _ => ⟨rfl, rfl, fun _ _ => rfl⟩
  | cons e l ih =>
    intro st rN h
    have hlen : (st.write rN (stepOp (st.read rN) e)).envs.length = st.envs.length :=
      length_write st rN _
    have h2 : rN < (st.write rN (stepOp (st.read rN) e)).envs.length := by
      rw [hlen]; exact h
    obtain ⟨hl, hr, ho⟩ := ih (st.write rN (stepOp (st.read rN) e)) rN h2
    refine ⟨hl.trans hlen, ?_, ?_⟩
    · rw [List.foldl_cons, List.foldl_cons, hr, read_write_self h]
    · intro r hrne
      rw [List.foldl_cons, ho r hrne, read_write_ne (Ne.symm hrne)]

theorem lookup_foldl_stepOp (l : List (Sigma fun _ : String => DiffVal)) :
    ∀ (env : Direnv.Env) (a : String), l.NodupKeys →
      (l.foldl stepOp env).lookup a = patchVal (l.dlookup a) (env.lookup a) := by
  induction l with
  | nil => exact fun env a _ => rfl
  | cons e l ih =>
    intro env a hnd
    obtain ⟨k, v⟩ := e
    have hk : k ∉ l.keys := (List.nodupKeys_cons.mp hnd).1
    have hnd' : l.NodupKeys := (List.nodupKeys_cons.mp hnd).2
    rw [List.foldl_cons, ih _ a hnd']
    by_cases hae : a = k
    · subst hae
      rw [List.dlookup_cons_eq, List.dlookup_eq_none.mpr hk]
      obtain ⟨o, n⟩ := v
      cases n with
      | some x =>
        show (env.insert a x).lookup a = patchVal (some (o, some x)) (env.lookup a)
        rw [Finmap.lookup_insert]
        rfl
      | none =>
        show (env.erase a).lookup a = patchVal (some (o, none)) (env.lookup a)
        rw [Finmap.lookup_erase]
        rfl
    · rw [List.dlookup_cons_ne _ _ hae]
      congr 1
      obtain ⟨o, n⟩ := v
      cases n with
      | some x =>
        show (env.insert k x).lookup a = env.lookup a
        exact Finmap.lookup_insert_of_ne _ hae
      | none =>
        show (env.erase k).lookup a = env.lookup a
        exact Finmap.lookup_erase_ne hae

theorem nodup_sortKeys {s : Multiset String} (h : s.Nodup) : (sortKeys s).Nodup := by
  induction s using Quot.inductionOn with
  | h l => exact ((List.perm_insertionSort keyLe l).nodup_iff).mpr h

theorem nodupKeys_keyedEntries {V : Type} (f : String → Option V) {ks : List String}
    (h : ks.Nodup) : (keyedEntries f ks).NodupKeys := by
  show (keyedEntries f ks).keys.Nodup
  rw [keyedEntries, List.keys, List.map_filterMap]
  apply List.Nodup.filterMap ?_ h
  intro a a' b hb hb'
  rcases hfa : f a with _ | v
  · rw [hfa] at hb
    simp at hb
  · rcases hfa' : f a' with _ | v'
    · rw [hfa'] at hb'
      simp at hb'
    · rw [hfa] at hb
      rw [hfa'] at hb'
      simp at hb hb'
      exact hb.trans hb'.symm

theorem dlookup_entriesListOf (d : EnvDiff) (a : String) :
    (entriesListOf d).dlookup a = d.lookup a := by
  rw [entriesListOf, dlookup_keyedEntries]
  split
  · rfl
  · rename_i h
    rw [mem_sortKeys, ← Finset.mem_def] at h
    exact (lookup_not_mem_keys h).symm

theorem nodupKeys_entriesListOf (d : EnvDiff) : (entriesListOf d).NodupKeys :=
  nodupKeys_keyedEntries _ (nodup_sortKeys d.keys.nodup)

theorem foldl_stepOp_patch (d : EnvDiff) (env : Direnv.Env) :
    (entriesListOf d).foldl stepOp env = d.Patch env := by
  apply Finmap.ext_lookup
  intro a
  rw [lookup_foldl_stepOp _ _ _ (nodupKeys_entriesListOf d), dlookup_entriesListOf,
    EnvDiff.lookup_Patch]

theorem PatchS_spec (d : EnvDiff) (s : Store) (r : Nat) :
    (∀ r2, r2 < s.envs.length → (PatchS d s r).1.read r2 = s.read r2) ∧
    (PatchS d s r).1.read (PatchS d s r).2 = d.Patch (s.read r) := by
  have hN : s.envs.length < (s.alloc (s.read r)).1.envs.length := by
    simp [Store.alloc]
  obtain ⟨hl, hr, ho⟩ := fold_writes (entriesListOf d) (s.alloc (s.read r)).1 s.envs.length hN
  constructor
  · intro r2 h2
    simp only [PatchS]
    rw [ho r2 (Nat.ne_of_lt h2), read_alloc_old h2]
  · simp only [PatchS]
    rw [hr, read_alloc_new, foldl_stepOp_patch]

/-- C1: for all environment snapshots A and B, applying the reverse of the
diff computed between them to B restores exactly A, and `Config.Revert`
realizes this law by decoding the recorded diff, reversing it and patching
the supplied environment. -/
theorem C1_revert_round_trip (A B : Direnv.Env) (config : Config) :
    ((BuildEnvDiff A B).Reverse).Patch B = A ∧
    (Env.getd config.Env DIRENV_DIFF ≠ "" →
      LoadEnvDiff (Env.getd config.Env DIRENV_DIFF) = .ok (BuildEnvDiff A B) →
      config.Revert B = .ok A) := by
  refine ⟨patch_reverse_build A B, fun hne hdec => ?_⟩
  unfold Config.Revert
  rw [if_neg hne, hdec]
  show Except.ok (((BuildEnvDiff A B).Reverse).Patch B) = Except.ok A
  rw [patch_reverse_build]

/-- C1 witness: the law and its realization by Revert, evaluated on the
specification's sample snapshots and a configuration recording their
serialized diff. -/
theorem C1_revert_round_trip_witness :
    ((BuildEnvDiff sampleBefore sampleAfter).Reverse).Patch sampleAfter = sampleBefore ∧
    sampleConfig.Revert sampleAfter = .ok sampleBefore :=
  ⟨(C1_revert_round_trip sampleBefore sampleAfter sampleConfig).1,
    (C1_revert_round_trip sampleBefore sampleAfter sampleConfig).2 (by decide) (by decide)⟩

/-- C2: Revert returns an unchanged copy of the supplied environment when
no diff is recorded, and otherwise decodes the recorded diff, reverses it
and applies it to the supplied environment. -/
theorem C2_revert_branches (config : Config) (env : Direnv.Env) :
    (Env.getd config.Env DIRENV_DIFF = "" →
      config.Revert env = .ok (Env.Copy env) ∧ Env.Copy env = env) ∧
    (∀ d, Env.getd config.Env DIRENV_DIFF ≠ "" →
      LoadEnvDiff (Env.getd config.Env DIRENV_DIFF) = .ok d →
      config.Revert env = .ok (d.Reverse.Patch env)) := by
  constructor
  · intro h
    refine ⟨?_, rfl⟩
    unfold Config.Revert
    rw [if_pos h]
  · intro d hne hdec
    unfold Config.Revert
    rw [if_neg hne, hdec]

/-- C2 witness: both branches of Revert evaluated on concrete
configurations — one without a recorded diff, one with the sample diff. -/
theorem C2_revert_branches_witness :
    emptyDiffConfig.Revert sampleAfter = .ok sampleAfter ∧
    sampleConfig.Revert sampleAfter =
      .ok (((BuildEnvDiff sampleBefore sampleAfter).Reverse).Patch sampleAfter) := by
  constructor
  · have h := (C2_revert_branches emptyDiffConfig sampleAfter).1 (by decide)
    exact h.1.trans (congrArg Except.ok h.2)
  · exact (C2_revert_branches sampleConfig sampleAfter).2
      (BuildEnvDiff sampleBefore sampleAfter) (by decide) (by decide)

/-- C3 (amended): when the recorded diff string is malformed, Revert
returns the decode error and produces no environment — no partial patch is
ever applied and the caller's snapshot is untouched — rather than
returning the unchanged environment the way the no-recorded-diff branch
does. -/
theorem C3_revert_malformed (config : Config) (env : Direnv.Env) (e : String)
    (hne : Env.getd config.Env DIRENV_DIFF ≠ "")
    (herr : LoadEnvDiff (Env.getd config.Env DIRENV_DIFF) = .error e) :
    config.Revert env = .error e ∧ ∀ env2, config.Revert env ≠ .ok env2 := by
  have hr : config.Revert env = .error e := by
    unfold Config.Revert
    rw [if_neg hne, herr]
  exact ⟨hr, fun env2 hh => by rw [hr] at hh; cases hh⟩

/-- C3 counterexample: on a malformed recorded diff, Revert returns an
error and does not return the unchanged environment, so the malformed case
is not treated like the no-recorded-diff case. -/
theorem C3_revert_malformed_counterexample :
    badDiffConfig.Revert sampleAfter =
      .error "unable to unmarshal the DIRENV_DIFF environment variable: garbage" ∧
    badDiffConfig.Revert sampleAfter ≠ .ok (Env.Copy sampleAfter) := by
  decide

/-- C3 witness: the amended behavior evaluated on a concrete malformed
recorded diff. -/
theorem C3_revert_malformed_witness :
    badDiffConfig.Revert sampleAfter =
      .error "unable to unmarshal the DIRENV_DIFF environment variable: garbage" :=
  (C3_revert_malformed badDiffConfig sampleAfter
    "unable to unmarshal the DIRENV_DIFF environment variable: garbage"
    (by decide) (by decide)).1

/-- C9: Revert never mutates the supplied snapshot: in the store-passing
rendering, the input cell reads the same after the call in every branch,
and the reference the call returns holds exactly the pure Revert result. -/
theorem C9_revert_no_mutation (config : Config) (s : Store) (r : Nat)
    (h : r < s.envs.length) :
    (RevertS config s r).1.read r = s.read r ∧
    (RevertS config s r).2.map (fun r2 => (RevertS config s r).1.read r2) =
      config.Revert (s.read r) := by
  unfold RevertS Config.Revert
  by_cases hd : Env.getd config.Env DIRENV_DIFF = ""
  · simp only [if_pos hd]
    constructor
    · exact read_alloc_old h
    · simp only [Except.map]
      exact congrArg Except.ok (read_alloc_new s (s.read r))
  · simp only [if_neg hd]
    cases hld : LoadEnvDiff (Env.getd config.Env DIRENV_DIFF) with
    | ok diff =>
      obtain ⟨hold, hnew⟩ := PatchS_spec diff.Reverse s r
      constructor
      · exact hold r h
      · simp only [Except.map]
        exact congrArg Except.ok hnew
    | error e => exact ⟨rfl, rfl⟩

/-- C9 witness: the no-mutation property evaluated on a one-cell store
holding the sample post-script snapshot. -/
theorem C9_revert_no_mutation_witness :
    (RevertS sampleConfig sampleStore 0).1.read 0 = sampleStore.read 0 ∧
    (RevertS sampleConfig sampleStore 0).2.map
        (fun r2 => (RevertS sampleConfig sampleStore 0).1.read r2) =
      sampleConfig.Revert (sampleStore.read 0) :=
  C9_revert_no_mutation sampleConfig sampleStore 0 (by decide)

theorem string_data_inj {a b : String} (h : a.data = b.data) : a = b := by
  cases a
  cases b
  cases h
  rfl

theorem strAppend_assoc (a b c : String) : a ++ b ++ c = a ++ (b ++ c) :=
  string_data_inj (by
    rw [String.data_append, String.data_append, String.data_append, String.data_append,
      List.append_assoc])

/-- C5: LoadConfig records the active script directory as the value of
DIRENV_DIR with a single leading dash marker stripped when present, and
verbatim otherwise. -/
theorem C5_rcdir_marker (w : World) (env : Direnv.Env)
    (hok : (LoadConfig w env).isOk = true) :
    (∀ rest, Env.getd env DIRENV_DIR = "-" ++ rest →
      (LoadConfig w env).map (fun c => c.RCDir) = .ok rest) ∧
    (strTake1 (Env.getd env DIRENV_DIR) ≠ "-" →
      (LoadConfig w env).map (fun c => c.RCDir) = .ok (Env.getd env DIRENV_DIR)) := by
  obtain ⟨c, hc⟩ := (except_isOk_iff _).mp hok
  have hrc : c.RCDir = rcDirOf env := by
    obtain ⟨h0, exePath, workDir, hex, hwd, hbr⟩ := LoadConfig_ok_iff.mp hc
    rcases hbr with ⟨_, hfin⟩ | ⟨_, tc, _, hfin⟩ <;>
      (obtain ⟨bp, _, _, _, rfl⟩ := finishLoadConfig_ok_iff.mp hfin; rfl)
  have hmap : (LoadConfig w env).map (fun c => c.RCDir) = .ok (rcDirOf env) := by
    rw [hc]
    simp only [Except.map]
    rw [hrc]
  constructor
  · intro rest hrest
    rw [hmap]
    congr 1
    unfold rcDirOf
    rw [hrest]
    have hlen : 0 < ("-" ++ rest).length := by
      rw [String.length_append]
      have h1 : ("-" : String).length = 1 := rfl
      omega
    have htake : strTake1 ("-" ++ rest) = "-" := by
      unfold strTake1
      rw [String.data_append]
      rfl
    rw [if_pos ⟨hlen, htake⟩]
    unfold strDrop1
    rw [String.data_append]
    rfl
  · intro hne
    rw [hmap]
    congr 1
    unfold rcDirOf
    rw [if_neg]
    rintro ⟨_, h2⟩
    exact hne h2

/-- C5 witness: stripping evaluated on an environment with the pending
revert marker, and verbatim recording on one without it. -/
theorem C5_rcdir_marker_witness :
    (LoadConfig noTomlWorld envMarker).map (fun c => c.RCDir) = .ok "/proj" ∧
    (LoadConfig noTomlWorld envPlain).map (fun c => c.RCDir) = .ok "/proj" := by
  constructor
  · exact (C5_rcdir_marker noTomlWorld envMarker (by decide)).1 "/proj" (by decide)
  · exact (C5_rcdir_marker noTomlWorld envPlain (by decide)).2 (by decide)

/-- C6: LoadedRC returns none exactly when no directory is recorded, and
otherwise reconstructs the handle from the recorded directory joined with
".envrc" together with the serialized watch data in DIRENV_WATCHES. -/
theorem C6_loadedRC (config : Config) :
    (config.LoadedRC = none ↔ config.RCDir = "") ∧
    (∀ rc, config.LoadedRC = some rc →
      rc = RCFromEnv (filepathJoin config.RCDir ".envrc")
            (Env.getd config.Env DIRENV_WATCHES) config ∧
      rc.path = config.RCDir ++ "/.envrc" ∧
      rc.times = Env.getd config.Env DIRENV_WATCHES) := by
  constructor
  · unfold Config.LoadedRC
    by_cases h : config.RCDir = ""
    · simp [h]
    · simp [h]
  · intro rc hrc
    unfold Config.LoadedRC at hrc
    by_cases h : config.RCDir = ""
    · rw [if_pos h] at hrc
      cases hrc
    · rw [if_neg h] at hrc
      simp only [Option.some.injEq] at hrc
      subst hrc
      refine ⟨rfl, ?_, rfl⟩
      show filepathJoin config.RCDir ".envrc" = config.RCDir ++ "/.envrc"
      unfold filepathJoin
      rw [if_neg h, if_neg (by decide : (".envrc" : String) ≠ "")]
      rw [strAppend_assoc]
      rfl

/-- C6 witness: the reconstruction evaluated on the sample configuration,
whose recorded directory is "/proj". -/
theorem C6_loadedRC_witness :
    sampleConfig.LoadedRC = some ⟨"/proj/.envrc", ""⟩ ∧
    ("/proj/.envrc" : String) = sampleConfig.RCDir ++ "/.envrc" := by
  have hsome : sampleConfig.LoadedRC = some ⟨"/proj/.envrc", ""⟩ := by decide
  have h := (C6_loadedRC sampleConfig).2 ⟨"/proj/.envrc", ""⟩ hsome
  exact ⟨hsome, h.2.1⟩

/-- C7: when the TOML configuration does not set a nonzero warn timeout,
the timeout comes from DIRENV_WARN_TIMEOUT, defaulting to five seconds
when the variable is unset, and falling back to five seconds — without
failing — when the variable holds an invalid duration. -/
theorem C7_warn_timeout (w : World) (env : Direnv.Env)
    (hok : (LoadConfig w env).isOk = true) (htoml : tomlWarn w env = 0)
    (h5 : w.parseDuration "5s" = .ok 5000000000) :
    (env.lookup "DIRENV_WARN_TIMEOUT" = none →
      (LoadConfig w env).map (fun c => c.WarnTimeout) = .ok 5000000000) ∧
    (∀ v e, env.lookup "DIRENV_WARN_TIMEOUT" = some v → w.parseDuration v = .error e →
      (LoadConfig w env).map (fun c => c.WarnTimeout) = .ok 5000000000) ∧
    (∀ v t, env.lookup "DIRENV_WARN_TIMEOUT" = some v → w.parseDuration v = .ok t →
      (LoadConfig w env).map (fun c => c.WarnTimeout) = .ok t) := by
  obtain ⟨c, hc⟩ := (except_isOk_iff _).mp hok
  have hwt : c.WarnTimeout = resolveWarnTimeout w env 0 := by
    obtain ⟨h0, exePath, workDir, hex, hwd, hbr⟩ := LoadConfig_ok_iff.mp hc
    rcases hbr with ⟨htp, hfin⟩ | ⟨htp, tc, htd, hfin⟩
    · obtain ⟨bp, _, _, _, rfl⟩ := finishLoadConfig_ok_iff.mp hfin
      rfl
    · obtain ⟨bp, _, _, _, rfl⟩ := finishLoadConfig_ok_iff.mp hfin
      show resolveWarnTimeout w env tc.Global.WarnTimeout = resolveWarnTimeout w env 0
      unfold tomlWarn at htoml
      rw [if_neg htp, htd] at htoml
      have h2 : tc.Global.WarnTimeout = 0 := htoml
      rw [h2]
  have hmap : (LoadConfig w env).map (fun c => c.WarnTimeout)
      = .ok (resolveWarnTimeout w env 0) := by
    rw [hc]
    simp only [Except.map]
    rw [hwt]
  refine ⟨?_, ?_, ?_⟩
  · intro hun
    rw [hmap]
    congr 1
    unfold resolveWarnTimeout Env.Fetch
    rw [if_pos rfl, hun, h5]
  · intro v e hv herr
    rw [hmap]
    congr 1
    unfold resolveWarnTimeout Env.Fetch
    rw [if_pos rfl, hv, herr]
  · intro v t hv hokp
    rw [hmap]
    congr 1
    unfold resolveWarnTimeout Env.Fetch
    rw [if_pos rfl, hv, hokp]

/-- C7 witness: the invalid-duration fallback and the unset default,
evaluated on worlds whose duration parser understands only "5s". -/
theorem C7_warn_timeout_witness :
    (LoadConfig sampleWorld envWarnBogus).map (fun c => c.WarnTimeout) = .ok 5000000000 ∧
    (LoadConfig sampleWorld envEmpty).map (fun c => c.WarnTimeout) = .ok 5000000000 := by
  constructor
  · exact (C7_warn_timeout sampleWorld envWarnBogus (by decide) (by decide) (by decide)).2.1
      "bogus" "invalid duration" (by decide) (by decide)
  · exact (C7_warn_timeout sampleWorld envEmpty (by decide) (by decide) (by decide)).1
      (by decide)

/-- C8: LoadConfig fails with an error whenever the configuration, cache
or data directory cannot be resolved; no Config value is produced. -/
theorem C8_dirs_required (w : World) (env : Direnv.Env)
    (h : resolvedConfDir w env = "" ∨ w.xdgCacheDir = "" ∨ w.xdgDataDir = "") :
    (LoadConfig w env).isOk = false := by
  by_contra hcon
  have hok : (LoadConfig w env).isOk = true := by
    cases hh : (LoadConfig w env).isOk
    · exact absurd hh hcon
    · rfl
  obtain ⟨c, hc⟩ := (except_isOk_iff _).mp hok
  obtain ⟨h0, exePath, workDir, hex, hwd, hbr⟩ := LoadConfig_ok_iff.mp hc
  have hcd : w.xdgCacheDir ≠ "" ∧ w.xdgDataDir ≠ "" := by
    rcases hbr with ⟨_, hfin⟩ | ⟨_, tc, _, hfin⟩ <;>
    · obtain ⟨bp, _, hc1, hc2, _⟩ := finishLoadConfig_ok_iff.mp hfin
      exact ⟨hc1, hc2⟩
  rcases h with h | h | h
  · exact h0 h
  · exact hcd.1 h
  · exact hcd.2 h

/-- C8 witness: failure evaluated on a world whose cache directory
resolves to nothing while the configuration directory resolves fine. -/
theorem C8_dirs_required_witness :
    (resolvedConfDir noCacheWorld envEmpty ≠ "" ∧ noCacheWorld.xdgCacheDir = "") ∧
    (LoadConfig noCacheWorld envEmpty).isOk = false :=
  ⟨⟨by decide, by decide⟩,
    C8_dirs_required noCacheWorld envEmpty (Or.inr (Or.inl (by decide)))⟩

/-- C4 counterexample: a whitelist prefix entry is stored verbatim, not
normalized to end in ".envrc" — loading succeeds while the stored prefix
list fails the every-entry-ends-in-".envrc" check. -/
theorem C4_whitelist_counterexample :
    (LoadConfig sampleWorld envEmpty).map
      (fun c => c.WhitelistPrefixes.all (fun p => strHasSuffix p ".envrc")) = .ok false := by
  decide

/-- C4 (amended): exact whitelist entries are normalized to end in the
canonical script filename — an exact entry "/home/x" is stored under
"/home/x/.envrc" and found there by lookup — while prefix entries are
stored verbatim, without normalization. -/
theorem C4_whitelist_normalization (w : World) (env : Direnv.Env) (tc : TomlConfig)
    (hok : (LoadConfig w env).isOk = true) (hdec : w.tomlDecode = .ok tc)
    (hstat : w.statDirenvToml = true ∨ w.statConfigToml = true) :
    (LoadConfig w env).map (fun c => c.WhitelistPrefixes) = .ok tc.Whitelist.Prefixes ∧
    (∀ c, LoadConfig w env = .ok c → ∀ k, k ∈ c.WhitelistExact →
      strHasSuffix k ".envrc" = true) ∧
    (∀ p, p ∈ tc.Whitelist.Exact →
      (LoadConfig w env).map (fun c => c.WhitelistExact.lookup (normalizeExactEntry p))
        = .ok (some true)) ∧
    normalizeExactEntry "/home/x" = "/home/x/.envrc" := by
  obtain ⟨c, hc⟩ := (except_isOk_iff _).mp hok
  obtain ⟨h0, exePath, workDir, hex, hwd, hbr⟩ := LoadConfig_ok_iff.mp hc
  have htp : tomlPathOf w env ≠ "" := by
    unfold tomlPathOf
    cases h1 : w.statDirenvToml with
    | true =>
      rw [if_pos rfl]
      exact filepathJoin_ne_empty h0 (by decide)
    | false =>
      have h2 : w.statConfigToml = true := by
        rcases hstat with h | h
        · rw [h1] at h
          cases h
        · exact h
      rw [if_neg (fun hh => Bool.noConfusion hh), if_pos h2]
      exact filepathJoin_ne_empty h0 (by decide)
  rcases hbr with ⟨htp0, _⟩ | ⟨_, tc2, htd2, hfin⟩
  · exact absurd htp0 htp
  · rw [hdec] at htd2
    cases htd2
    obtain ⟨bp, hbp, hcc1, hcc2, rfl⟩ := finishLoadConfig_ok_iff.mp hfin
    refine ⟨?_, ?_, ?_, by decide⟩
    · rw [hc]
      rfl
    · intro c' hc' k hk
      rw [hc] at hc'
      cases hc'
      obtain ⟨p, _, rfl⟩ := mem_whitelistExactMap hk
      exact endsWith_normalizeExactEntry p
    · intro p hp
      rw [hc]
      show Except.ok ((whitelistExactMap tc.Whitelist.Exact).lookup (normalizeExactEntry p))
        = Except.ok (some true)
      rw [lookup_whitelistExactMap, if_pos (List.mem_map.mpr ⟨p, hp, rfl⟩)]

/-- C4 witness: the amended normalization evaluated on the sample world,
whose TOML whitelist declares "/home/x" both as prefix and as exact. -/
theorem C4_whitelist_normalization_witness :
    (LoadConfig sampleWorld envEmpty).map (fun c => c.WhitelistPrefixes)
        = .ok ["/home/x"] ∧
    (LoadConfig sampleWorld envEmpty).map
        (fun c => c.WhitelistExact.lookup "/home/x/.envrc") = .ok (some true) := by
  have h := C4_whitelist_normalization sampleWorld envEmpty sampleToml
    (by decide) (by decide) (Or.inl (by decide))
  refine ⟨h.1, ?_⟩
  have h3 := h.2.2.1 "/home/x" (by decide)
  rw [h.2.2.2] at h3
  exact h3

theorem LoadConfig_eq_branch {w : World} {env : Direnv.Env} {exePath workDir : String}
    (h0 : resolvedConfDir w env ≠ "") (hex : w.osExecutable = .ok exePath)
    (hwd : w.osGetwd = .ok workDir) :
    LoadConfig w env =
      if tomlPathOf w env = "" then
        finishLoadConfig w env (resolvedConfDir w env) (replaceBackslashes exePath) workDir
          (rcDirOf env) (tomlPathOf w env) [] ∅ false "" false false 0
      else
        match w.tomlDecode with
        | .error e => .error ("LoadConfig() failed to parse " ++ tomlPathOf w env ++ ": " ++ e)
        | .ok tomlConf =>
          finishLoadConfig w env (resolvedConfDir w env) (replaceBackslashes exePath) workDir
            (rcDirOf env) (tomlPathOf w env) tomlConf.Whitelist.Prefixes
            (whitelistExactMap tomlConf.Whitelist.Exact) tomlConf.Global.BashBuiltin
            tomlConf.Global.BashPath tomlConf.Global.DisableStdin tomlConf.Global.StrictEnv
            tomlConf.Global.WarnTimeout := by
  unfold LoadConfig
  rw [if_neg h0, hex, hwd]

theorem finishLoadConfig_error_bash {w : World} {env : Direnv.Env}
    {confDir selfPath workDir rcDir tomlPath : String} {wlPre : List String}
    {wlExact : Finmap (fun _ : String => Bool)} {bashBuiltin : Bool} {bashPath0 : String}
    {disableStdin strictEnv : Bool} {warnTimeout0 : Duration} {e : String}
    (h : resolveBashPath w env bashPath0 = .error e) :
    finishLoadConfig w env confDir selfPath workDir rcDir tomlPath wlPre wlExact
      bashBuiltin bashPath0 disableStdin strictEnv warnTimeout0 = .error e := by
  unfold finishLoadConfig
  rw [h]

theorem finishLoadConfig_isOk {w : World} {env : Direnv.Env}
    {confDir selfPath workDir rcDir tomlPath : String} {wlPre : List String}
    {wlExact : Finmap (fun _ : String => Bool)} {bashBuiltin : Bool} {bashPath0 : String}
    {disableStdin strictEnv : Bool} {warnTimeout0 : Duration}
    (h : (resolveBashPath w env bashPath0).isOk = true)
    (h1 : w.xdgCacheDir ≠ "") (h2 : w.xdgDataDir ≠ "") :
    (finishLoadConfig w env confDir selfPath workDir rcDir tomlPath wlPre wlExact
      bashBuiltin bashPath0 disableStdin strictEnv warnTimeout0).isOk = true := by
  obtain ⟨bp, hbp⟩ := (except_isOk_iff _).mp h
  rw [finishLoadConfig_ok_iff.mpr ⟨bp, hbp, h1, h2, rfl⟩]
  rfl

theorem resolveBashPath_isOk {w : World} {env : Direnv.Env} {b0 : String}
    (h : b0 ≠ "" ∨ Env.getd env DIRENV_BASH ≠ "" ∨ w.bashPathDefault ≠ "" ∨
      w.lookPathBash.isOk = true) :
    (resolveBashPath w env b0).isOk = true := by
  by_cases hb : b0 = ""
  · subst hb
    by_cases he : Env.getd env DIRENV_BASH = ""
    · by_cases hd2 : w.bashPathDefault = ""
      · rcases h with h | h | h | h
        · exact absurd rfl h
        · exact absurd he h
        · exact absurd hd2 h
        · rw [resolveBashPath_lookpath he hd2]
          obtain ⟨p, hp⟩ := (except_isOk_iff _).mp h
          rw [hp]
          rfl
      · rw [resolveBashPath_default he hd2]
        rfl
    · rw [resolveBashPath_env he]
      rfl
  · rw [resolveBashPath_toml hb]
    rfl

theorem resolveBashPath_error {w : World} {env : Direnv.Env}
    (he : Env.getd env DIRENV_BASH = "") (hd2 : w.bashPathDefault = "")
    (hl : w.lookPathBash.isOk = false) :
    ∃ e, resolveBashPath w env "" = .error e := by
  rw [resolveBashPath_lookpath he hd2]
  cases hlp : w.lookPathBash with
  | ok p =>
    rw [hlp] at hl
    simp [Except.isOk, Except.toBool] at hl
  | error e => exact ⟨"can't find bash: " ++ e, rfl⟩

/-- C10: the bash interpreter resolution precedence — the TOML bash path
wins over DIRENV_BASH, which wins over the compiled-in default, which
wins over a PATH lookup — and, with the other steps succeeding and the
directories resolvable, LoadConfig fails exactly when all four sources
are unavailable. -/
theorem C10_bash_precedence (w : World) (env : Direnv.Env) :
    ((LoadConfig w env).isOk = true →
      (tomlBash w env ≠ "" →
        (LoadConfig w env).map (fun c => c.BashPath) = .ok (tomlBash w env)) ∧
      (tomlBash w env = "" → Env.getd env DIRENV_BASH ≠ "" →
        (LoadConfig w env).map (fun c => c.BashPath) = .ok (Env.getd env DIRENV_BASH)) ∧
      (tomlBash w env = "" → Env.getd env DIRENV_BASH = "" → w.bashPathDefault ≠ "" →
        (LoadConfig w env).map (fun c => c.BashPath) = .ok w.bashPathDefault) ∧
      (tomlBash w env = "" → Env.getd env DIRENV_BASH = "" → w.bashPathDefault = "" →
        ∀ p, w.lookPathBash = .ok p →
          (LoadConfig w env).map (fun c => c.BashPath) = .ok p)) ∧
    (∀ exePath workDir, resolvedConfDir w env ≠ "" → w.osExecutable = .ok exePath →
      w.osGetwd = .ok workDir → (tomlPathOf w env ≠ "" → w.tomlDecode.isOk = true) →
      tomlBash w env = "" → Env.getd env DIRENV_BASH = "" → w.bashPathDefault = "" →
      w.lookPathBash.isOk = false → (LoadConfig w env).isOk = false) ∧
    (∀ exePath workDir, resolvedConfDir w env ≠ "" → w.osExecutable = .ok exePath →
      w.osGetwd = .ok workDir → (tomlPathOf w env ≠ "" → w.tomlDecode.isOk = true) →
      w.xdgCacheDir ≠ "" → w.xdgDataDir ≠ "" →
      (tomlBash w env ≠ "" ∨ Env.getd env DIRENV_BASH ≠ "" ∨ w.bashPathDefault ≠ "" ∨
        w.lookPathBash.isOk = true) →
      (LoadConfig w env).isOk = true) := by
  refine ⟨?_, ?_, ?_⟩
  · intro hok
    obtain ⟨c, hc⟩ := (except_isOk_iff _).mp hok
    obtain ⟨h0, exePath, workDir, hex, hwd, hbr⟩ := LoadConfig_ok_iff.mp hc
    have hbp : ∃ bp, resolveBashPath w env (tomlBash w env) = .ok bp ∧ c.BashPath = bp := by
      rcases hbr with ⟨htp, hfin⟩ | ⟨htp, tc, htd, hfin⟩
      · obtain ⟨bp, hb, _, _, rfl⟩ := finishLoadConfig_ok_iff.mp hfin
        have hTB : tomlBash w env = "" := by
          unfold tomlBash
          rw [if_pos htp]
        exact ⟨bp, by rw [hTB]; exact hb, rfl⟩
      · obtain ⟨bp, hb, _, _, rfl⟩ := finishLoadConfig_ok_iff.mp hfin
        have hTB : tomlBash w env = tc.Global.BashPath := by
          unfold tomlBash
          rw [if_neg htp, htd]
        exact ⟨bp, by rw [hTB]; exact hb, rfl⟩
    obtain ⟨bp, hrb, hcb⟩ := hbp
    have hmap : (LoadConfig w env).map (fun c => c.BashPath) = .ok bp := by
      rw [hc]
      simp only [Except.map]
      rw [hcb]
    refine ⟨?_, ?_, ?_, ?_⟩
    · intro ht
      rw [resolveBashPath_toml ht] at hrb
      cases hrb
      exact hmap
    · intro ht he
      rw [ht, resolveBashPath_env he] at hrb
      cases hrb
      exact hmap
    · intro ht he hd2
      rw [ht, resolveBashPath_default he hd2] at hrb
      cases hrb
      exact hmap
    · intro ht he hd2 p hp
      rw [ht, resolveBashPath_lookpath he hd2, hp] at hrb
      have h2 : Except.ok (ε := String) p = Except.ok bp := hrb
      cases h2
      exact hmap
  · intro exePath workDir h0 hex hwd htd h5 he hd2 hl
    rw [LoadConfig_eq_branch h0 hex hwd]
    by_cases htp : tomlPathOf w env = ""
    · rw [if_pos htp]
      obtain ⟨e, herr⟩ := resolveBashPath_error he hd2 hl
      rw [finishLoadConfig_error_bash herr]
      rfl
    · have hdx := htd htp
      obtain ⟨tc, htc⟩ := (except_isOk_iff _).mp hdx
      have hTB : tc.Global.BashPath = "" := by
        have hq : tomlBash w env = tc.Global.BashPath := by
          unfold tomlBash
          rw [if_neg htp, htc]
        rw [← hq]
        exact h5
      have hgoal : (if tomlPathOf w env = "" then
            finishLoadConfig w env (resolvedConfDir w env) (replaceBackslashes exePath)
              workDir (rcDirOf env) (tomlPathOf w env) [] ∅ false "" false false 0
          else
            match w.tomlDecode with
            | .error e =>
              .error ("LoadConfig() failed to parse " ++ tomlPathOf w env ++ ": " ++ e)
            | .ok tomlConf =>
              finishLoadConfig w env (resolvedConfDir w env) (replaceBackslashes exePath)
                workDir (rcDirOf env) (tomlPathOf w env) tomlConf.Whitelist.Prefixes
                (whitelistExactMap tomlConf.Whitelist.Exact) tomlConf.Global.BashBuiltin
                tomlConf.Global.BashPath tomlConf.Global.DisableStdin
                tomlConf.Global.StrictEnv tomlConf.Global.WarnTimeout) =
          finishLoadConfig w env (resolvedConfDir w env) (replaceBackslashes exePath)
            workDir (rcDirOf env) (tomlPathOf w env) tc.Whitelist.Prefixes
            (whitelistExactMap tc.Whitelist.Exact) tc.Global.BashBuiltin
            tc.Global.BashPath tc.Global.DisableStdin tc.Global.StrictEnv
            tc.Global.WarnTimeout := by
        rw [if_neg htp, htc]
      rw [hgoal, hTB]
      obtain ⟨e, herr⟩ := resolveBashPath_error he hd2 hl
      rw [finishLoadConfig_error_bash herr]
      rfl
  · intro exePath workDir h0 hex hwd htd hcc1 hcc2 hsrc
    rw [LoadConfig_eq_branch h0 hex hwd]
    by_cases htp : tomlPathOf w env = ""
    · have hTB : tomlBash w env = "" := by
        unfold tomlBash
        rw [if_pos htp]
      rw [if_pos htp]
      apply finishLoadConfig_isOk ?_ hcc1 hcc2
      apply resolveBashPath_isOk
      rcases hsrc with h | h | h | h
      · exact absurd hTB h
      · exact Or.inr (Or.inl h)
      · exact Or.inr (Or.inr (Or.inl h))
      · exact Or.inr (Or.inr (Or.inr h))
    · have hdx := htd htp
      obtain ⟨tc, htc⟩ := (except_isOk_iff _).mp hdx
      have hTB : tomlBash w env = tc.Global.BashPath := by
        unfold tomlBash
        rw [if_neg htp, htc]
      have hgoal : (if tomlPathOf w env = "" then
            finishLoadConfig w env (resolvedConfDir w env) (replaceBackslashes exePath)
              workDir (rcDirOf env) (tomlPathOf w env) [] ∅ false "" false false 0
          else
            match w.tomlDecode with
            | .error e =>
              .error ("LoadConfig() failed to parse " ++ tomlPathOf w env ++ ": " ++ e)
            | .ok tomlConf =>
              finishLoadConfig w env (resolvedConfDir w env) (replaceBackslashes exePath)
                workDir (rcDirOf env) (tomlPathOf w env) tomlConf.Whitelist.Prefixes
                (whitelistExactMap tomlConf.Whitelist.Exact) tomlConf.Global.BashBuiltin
                tomlConf.Global.BashPath tomlConf.Global.DisableStdin
                tomlConf.Global.StrictEnv tomlConf.Global.WarnTimeout) =
          finishLoadConfig w env (resolvedConfDir w env) (replaceBackslashes exePath)
            workDir (rcDirOf env) (tomlPathOf w env) tc.Whitelist.Prefixes
            (whitelistExactMap tc.Whitelist.Exact) tc.Global.BashBuiltin
            tc.Global.BashPath tc.Global.DisableStdin tc.Global.StrictEnv
            tc.Global.WarnTimeout := by
        rw [if_neg htp, htc]
      rw [hgoal]
      apply finishLoadConfig_isOk ?_ hcc1 hcc2
      apply resolveBashPath_isOk
      rcases hsrc with h | h | h | h
      · exact Or.inl (hTB ▸ h)
      · exact Or.inr (Or.inl h)
      · exact Or.inr (Or.inr (Or.inl h))
      · exact Or.inr (Or.inr (Or.inr h))

/-- C10 witness: the DIRENV_BASH step evaluated on a world without TOML,
and the failure case evaluated on a world where all four sources are
unavailable. -/
theorem C10_bash_precedence_witness :
    (LoadConfig noTomlWorld envBashSet).map (fun c => c.BashPath) = .ok "/opt/bash" ∧
    (LoadConfig noBashWorld envEmpty).isOk = false := by
  constructor
  · exact ((C10_bash_precedence noTomlWorld envBashSet).1 (by decide)).2.1
      (by decide) (by decide)
  · exact (C10_bash_precedence noBashWorld envEmpty).2.1 "/usr/local/bin/direnv" "/home/u"
      (by decide) (by decide) (by decide)
      (fun hh => absurd (by decide : tomlPathOf noBashWorld envEmpty = "") hh)
      (by decide) (by decide) (by decide) (by decide)

end Direnv
